import Mathlib

/-!
Verification development for the Jinx O repository: a shallow embedding of
the data model (src/unnamed/part_000, the types module), the room operations
of src/App.tsx and the persistence wrapper src/firebase-service.ts, together
with theorems settling the frozen claims about them.

Modelling conventions: the players object (a JS record keyed by player id,
with insertion order) is an association list; the realtime-database state at
one room path is an Option GameRoom (none = the room document is absent);
Math.random draws are explicit parameters (a rational in the unit interval
for the room-id draw, a natural pick index reduced modulo the candidate-list
length for the random-element choices); JS localeCompare string comparison
is modelled as lexicographic comparison of the character sequences.
-/

namespace JinxO

/-- ScoreType from the types module: NONE, O, X or STAR. -/
inductive ScoreType
  | NONE
  | O
  | X
  | STAR
deriving DecidableEq

/-- GridCell from the types module: a word plus a score tag. -/
structure GridCell where
  word : String
  score : ScoreType
deriving DecidableEq

/-- Player as the application reads and writes it: the fields of the types
module plus the connection status field ("active" or "leaved") that
src/firebase-service.ts and src/App.tsx store on every player record. -/
structure Player where
  id : String
  name : String
  isHost : Bool
  grid : List GridCell
  totalScore : Int
  isReady : Bool
  status : String
deriving DecidableEq

/-- Game phases as src/App.tsx uses them (LOBBY, SELECT_TOPICS, WRITING,
SCORING, VALIDATION, FINISHED). Note: the declared enum in the types module
(src/unnamed/part_000) names its second member SELECT_THEMES, not
SELECT_TOPICS; see declaredGamePhaseNames below and the claim C2 theorem. -/
inductive GamePhase
  | LOBBY
  | SELECT_TOPICS
  | WRITING
  | SCORING
  | VALIDATION
  | FINISHED
deriving DecidableEq

/-- String value of each phase member as App.tsx would write it. -/
def phaseName : GamePhase → String
  | GamePhase.LOBBY => "LOBBY"
  | GamePhase.SELECT_TOPICS => "SELECT_TOPICS"
  | GamePhase.WRITING => "WRITING"
  | GamePhase.SCORING => "SCORING"
  | GamePhase.VALIDATION => "VALIDATION"
  | GamePhase.FINISHED => "FINISHED"

/-- Member names of the GamePhase enum as declared in src/unnamed/part_000
lines 1-8 (which are also its string values there). -/
def declaredGamePhaseNames : List String :=
  ["LOBBY", "SELECT_THEMES", "WRITING", "SCORING", "VALIDATION", "FINISHED"]

/-- Phase values the application writes to a room: LOBBY in handleCreateRoom,
SELECT_TOPICS in the Start Game button and in handleRestart, WRITING in the
Confirm Topics button, SCORING in the Lock Board button, VALIDATION in the
Reveal button, FINISHED in calculateFinalScores. -/
def appWrittenPhases : List GamePhase :=
  [GamePhase.LOBBY, GamePhase.SELECT_TOPICS, GamePhase.WRITING,
   GamePhase.SCORING, GamePhase.VALIDATION, GamePhase.FINISHED]

/-- GameRoom as the application reads and writes it (the types module
declares the topics field under the name themes; App.tsx reads and writes
room.topics). -/
structure GameRoom where
  id : String
  hostId : String
  topics : List String
  phase : GamePhase
  players : List (String × Player)
  createdAt : Int
deriving DecidableEq

/-- Helper of App.tsx: Array(9).fill(null).map(() => ({word, score})). -/
def createEmptyGrid : List GridCell :=
  List.replicate 9 { word := "", score := ScoreType.NONE }

/-- Reading players[uid] on a JS record, as an association-list lookup. -/
def lookupP : List (String × Player) → String → Option Player
  | [], _ => none
  | (k, p) :: rest, uid => if k = uid then some p else lookupP rest uid

/-- Whether the JS record has the key uid. -/
def hasKey (ps : List (String × Player)) (uid : String) : Bool :=
  ps.any (fun kp => kp.1 == uid)

/-- Rewriting the value at an existing key in place (JS property update). -/
def updateP : List (String × Player) → String → (Player → Player) → List (String × Player)
  | [], _, _ => []
  | (k, p) :: rest, uid, f =>
      if k = uid then (k, f p) :: rest else (k, p) :: updateP rest uid f

/-- Semantics of the spread {...players, [uid]: p}: overwrite in place when
the key exists, append otherwise (JS records keep insertion order). -/
def setP (ps : List (String × Player)) (uid : String) (p : Player) : List (String × Player) :=
  if hasKey ps uid then updateP ps uid (fun _ => p) else ps ++ [(uid, p)]

/-- In-place update of one index of a JS array (grid[i].field = v). -/
def modifyAt : List GridCell → Nat → (GridCell → GridCell) → List GridCell
  | [], _, _ => []
  | c :: cs, 0, f => f c :: cs
  | c :: cs, i + 1, f => c :: modifyAt cs i f

end JinxO

namespace JinxO

/-- Score cycle array of cycleScore in App.tsx. -/
def scoreCycle : List ScoreType :=
  [ScoreType.NONE, ScoreType.O, ScoreType.X, ScoreType.STAR]

/-- Next score along the cycle: scores[(scores.indexOf(s) + 1) % scores.length]. -/
def nextScore (s : ScoreType) : ScoreType :=
  (scoreCycle.get? ((scoreCycle.indexOf s + 1) % scoreCycle.length)).getD ScoreType.NONE

/-- cycleScore of App.tsx: no write unless the phase is SCORING or
VALIDATION; otherwise advance the score of cell idx of the grid of the
calling user and write the players object back. The some result is the
written room state, none means no write was issued. -/
def cycleScore (room : GameRoom) (uid : String) (idx : Nat) : Option GameRoom :=
  if room.phase ≠ GamePhase.SCORING ∧ room.phase ≠ GamePhase.VALIDATION then none
  else some { room with
    players := updateP room.players uid (fun p =>
      { p with grid := modifyAt p.grid idx (fun c => { c with score := nextScore c.score }) }) }

/-- Shared data change of updateGrid (optimistic local write) and
saveGridToDb (persisted write) in App.tsx: players[uid].grid[idx].word = w. -/
def setWord (room : GameRoom) (uid : String) (idx : Nat) (w : String) : GameRoom :=
  { room with
    players := updateP room.players uid (fun p =>
      { p with grid := modifyAt p.grid idx (fun c => { c with word := w }) }) }

/-- handleRestart of App.tsx: only the host restarts; phase back to
SELECT_TOPICS, topics cleared, every player keeps everything except grid
(reset to empty) and isReady (reset to false). -/
def handleRestart (room : GameRoom) (uid : String) : Option GameRoom :=
  if uid ≠ room.hostId then none
  else some { room with
    phase := GamePhase.SELECT_TOPICS,
    topics := ["", "", ""],
    players := room.players.map (fun kp =>
      (kp.1, { kp.2 with grid := createEmptyGrid, isReady := false })) }

/-- Base points of one cell in calculateFinalScores: +1 if O, +2 if STAR. -/
def cellPoints (c : GridCell) : Int :=
  (if c.score = ScoreType.O then 1 else 0) + (if c.score = ScoreType.STAR then 2 else 0)

/-- Score tag at index i of a grid (NONE when out of range). -/
def scoreAt (g : List GridCell) (i : Nat) : ScoreType :=
  match g.get? i with
  | some c => c.score
  | none => ScoreType.NONE

/-- Test s === O || s === STAR of calculateFinalScores. -/
def isOS (s : ScoreType) : Bool :=
  s == ScoreType.O || s == ScoreType.STAR

/-- Row r is a bingo: indices r*3 .. r*3+2 all O or STAR. -/
def rowBingo (g : List GridCell) (r : Nat) : Bool :=
  [0, 1, 2].all (fun off => isOS (scoreAt g (r * 3 + off)))

/-- Column c is a bingo: indices c, c+3, c+6 all O or STAR. -/
def colBingo (g : List GridCell) (c : Nat) : Bool :=
  [0, 1, 2].all (fun off => isOS (scoreAt g (c + off * 3)))

/-- Round total of one grid in calculateFinalScores: base points plus row
bonuses [3, 2, 1] plus column bonuses [1, 2, 3]. -/
def roundScore (g : List GridCell) : Int :=
  (g.map cellPoints).sum
    + ((if rowBingo g 0 then 3 else 0) + (if rowBingo g 1 then 2 else 0)
        + (if rowBingo g 2 then 1 else 0))
    + ((if colBingo g 0 then 1 else 0) + (if colBingo g 1 then 2 else 0)
        + (if colBingo g 2 then 3 else 0))

/-- calculateFinalScores of App.tsx: add the round total of each player to
that player and move the room to FINISHED. -/
def calculateFinalScores (room : GameRoom) : GameRoom :=
  { room with
    players := room.players.map (fun kp =>
      (kp.1, { kp.2 with totalScore := kp.2.totalScore + roundScore kp.2.grid })),
    phase := GamePhase.FINISHED }

/-- Cell points as the claim states them: 1 per O, 2 per STAR, 0 otherwise. -/
def specCellPoints (c : GridCell) : Int :=
  match c.score with
  | ScoreType.O => 1
  | ScoreType.STAR => 2
  | _ => 0

/-- Three named cells are all scored O or STAR. -/
def specFull (g : List GridCell) (i j k : Nat) : Bool :=
  isOS (scoreAt g i) && (isOS (scoreAt g j) && isOS (scoreAt g k))

/-- Round score exactly as claim C1 words it: 1 point per O cell and 2 per
STAR cell, a row bonus of 3, 2, 1 for the top (cells 0-2), middle (3-5),
bottom (6-8) row when its three cells are all O or STAR, and a column bonus
of 1, 2, 3 for the left (0,3,6), middle (1,4,7), right (2,5,8) column when
its three cells are all O or STAR. -/
def specRoundScore (g : List GridCell) : Int :=
  (g.map specCellPoints).sum
    + ((if specFull g 0 1 2 then 3 else 0) + (if specFull g 3 4 5 then 2 else 0)
        + (if specFull g 6 7 8 then 1 else 0))
    + ((if specFull g 0 3 6 then 1 else 0) + (if specFull g 1 4 7 then 2 else 0)
        + (if specFull g 2 5 8 then 3 else 0))

end JinxO

namespace JinxO

/-- Player record that joinRoom creates for a first-time joiner. -/
def freshPlayer (uid name : String) : Player :=
  { id := uid, name := name, isHost := false, grid := createEmptyGrid,
    totalScore := 0, isReady := false, status := "active" }

/-- joinRoom of src/firebase-service.ts: reject with "Room not found" when
the room document is absent; otherwise write the player into the players
object, keeping the existing record (except name and status) on rejoin and
creating a fresh record otherwise, and resolve with the updated room. -/
def joinRoom (db : Option GameRoom) (uid name : String) : Except String GameRoom :=
  match db with
  | none => Except.error "Room not found"
  | some room =>
    match lookupP room.players uid with
    | some existing =>
        Except.ok { room with
          players := setP room.players uid { existing with name := name, status := "active" } }
    | none =>
        Except.ok { room with players := setP room.players uid (freshPlayer uid name) }

/-- handleJoinRoom of App.tsx: refuse long names locally, otherwise call
joinRoom and surface a rejection message as the UI error string (clearing
it on success). The first component is the joined room, the second the
resulting error string. -/
def handleJoinRoom (db : Option GameRoom) (uid name : String) : Option GameRoom × String :=
  if name.length > 24 then (none, "Name must be 24 characters or less")
  else
    match joinRoom db uid name with
    | Except.error msg => (none, msg)
    | Except.ok room => (some room, "")

/-- handleCreateRoom of App.tsx (after the name-length guard): the new room
with the creator as host and only player. -/
def handleCreateRoom (uid name rid : String) (now : Int) : Option GameRoom :=
  if name.length > 24 then none
  else some
    { id := rid, hostId := uid, topics := ["", "", ""], phase := GamePhase.LOBBY,
      players := [(uid,
        { id := uid, name := name, isHost := true, grid := createEmptyGrid,
          totalScore := 0, isReady := false, status := "active" })],
      createdAt := now }

/-- Room id draw of handleCreateRoom: Math.floor(1000 + Math.random() * 9000),
with the Math.random() value q modelled as a rational in the unit interval. -/
def genRoomIdNum (q : ℚ) : ℤ :=
  Int.floor ((1000 : ℚ) + q * 9000)

/-- Room id string: the decimal representation of the drawn integer. -/
def genRoomId (q : ℚ) : String :=
  toString (genRoomIdNum q)

/-- Element picked by Math.floor(Math.random() * list.length): the random
draw is modelled as an arbitrary index reduced modulo the length; none
exactly when the list is empty. -/
def pickAt (l : List String) (pick : Nat) : Option String :=
  l.get? (pick % l.length)

/-- Marking the leaving player: update(playerRef, { status: "leaved" }). -/
def markLeaved (room : GameRoom) (uid : String) : GameRoom :=
  { room with players := updateP room.players uid (fun p => { p with status := "leaved" }) }

/-- Keys of Object.entries(players).filter(([id, p]) => id !== uid &&
p.status !== "leaved").map(([id]) => id) in leaveRoom. -/
def remainingActiveKeys (room : GameRoom) (uid : String) : List String :=
  (room.players.filter (fun kp => kp.1 != uid && kp.2.status != "leaved")).map Prod.fst

/-- Object.values(players).every(p => p.id === uid || p.status === "leaved")
in the host branch of leaveRoom. -/
def allLeavedOrSelf (room : GameRoom) (uid : String) : Bool :=
  room.players.all (fun kp => kp.2.id == uid || kp.2.status == "leaved")

/-- Object.values(players).every(p => p.status === "leaved") in the
non-host branch of leaveRoom. -/
def allLeaved (room : GameRoom) : Bool :=
  room.players.all (fun kp => kp.2.status == "leaved")

/-- Object.keys(players).filter(id => id !== uid) in leaveRoom. -/
def remainingKeys (room : GameRoom) (uid : String) : List String :=
  (room.players.map Prod.fst).filter (fun k => k != uid)

/-- Host transfer update of leaveRoom: { hostId: newHostId,
players/newHostId/isHost: true, players/uid/isHost: false }. -/
def transferHost (room : GameRoom) (uid newHostId : String) : GameRoom :=
  { room with
    hostId := newHostId,
    players := updateP (updateP room.players newHostId (fun p => { p with isHost := true }))
      uid (fun p => { p with isHost := false }) }

/-- Branching of leaveRoom after the leaver has been marked "leaved" and the
room has been refetched (room is the marked state). In the host branch:
transfer the host to a random remaining active player if one exists; else
delete the room if every player is the leaver or marked "leaved"; else hand
the host to a random remaining (disconnected) player. In the non-host
branch: delete the room exactly when every player is marked "leaved". -/
def leaveRoomCore (room : GameRoom) (uid : String) (isHost : Bool) (pick : Nat) : Option GameRoom :=
  if isHost then
    match pickAt (remainingActiveKeys room uid) pick with
    | some newHostId => some (transferHost room uid newHostId)
    | none =>
        if allLeavedOrSelf room uid then none
        else
          match pickAt (remainingKeys room uid) pick with
          | some newHostId => some (transferHost room uid newHostId)
          | none => some room
  else if allLeaved room then none else some room

/-- leaveRoom of src/firebase-service.ts: mark the leaving player "leaved",
refetch the room, then branch as in leaveRoomCore. The result is the room
document state after the call (none = deleted or already absent). -/
def leaveRoom (db : Option GameRoom) (uid : String) (isHost : Bool) (pick : Nat) : Option GameRoom :=
  match db with
  | none => none
  | some room => leaveRoomCore (markLeaved room uid) uid isHost pick

/-- Lexicographic comparison of character lists (model of the string
comparison a.id.localeCompare(b.id) used to sort player ids). -/
def lexLe : List Char → List Char → Bool
  | [], _ => true
  | _ :: _, [] => false
  | a :: as, b :: bs =>
      if a.toNat < b.toNat then true
      else if b.toNat < a.toNat then false
      else lexLe as bs

/-- Lexicographic string comparison on the character sequences. -/
def strLe (a b : String) : Bool :=
  lexLe a.data b.data

/-- Sort order of the host-claim effect: by player id. -/
def idLe (a b : Player) : Prop :=
  strLe a.id b.id = true

instance : DecidableRel idLe := fun a b => decEq (strLe a.id b.id) true

/-- Active players of the host-claim effect in App.tsx:
Object.values(players).filter(p => p.status !== "leaved"). -/
def activePlayers (room : GameRoom) : List Player :=
  (room.players.map Prod.snd).filter (fun p => p.status != "leaved")

/-- Host-gone test of the host-claim effect: the host is absent from the
players object or marked "leaved". -/
def hostGone (room : GameRoom) : Bool :=
  match lookupP room.players room.hostId with
  | none => true
  | some p => p.status == "leaved"

/-- Active players sorted by id (activePlayers.sort by localeCompare). -/
def sortedActive (room : GameRoom) : List Player :=
  List.insertionSort idLe (activePlayers room)

/-- Whether the client with user id uid issues the host-reassignment write
in the host-claim effect: only when the host is gone, some active player
remains, and uid is the id of the first player in the sorted order. -/
def hostClaimWrites (room : GameRoom) (uid : String) : Bool :=
  if hostGone room then
    match (sortedActive room).head? with
    | some leader => uid == leader.id
    | none => false
  else false

end JinxO

namespace JinxO

theorem cellPoints_eq_specCellPoints (c : GridCell) : cellPoints c = specCellPoints c := by
  cases h : c.score <;> simp [cellPoints, specCellPoints, h]

theorem roundScore_eq_specRoundScore (g : List GridCell) : roundScore g = specRoundScore g := by
  have hc : cellPoints = specCellPoints := funext cellPoints_eq_specCellPoints
  simp [roundScore, specRoundScore, rowBingo, colBingo, specFull, hc]

/-- Sample one-player room used by witnesses: a 9-cell grid scoring 16
(base 9, top-row bonus 3, bottom-row bonus 1, right-column bonus 3). -/
def sampleScoreRoom : GameRoom :=
  { id := "1234", hostId := "u1", topics := ["t1", "t2", "t3"],
    phase := GamePhase.VALIDATION,
    players := [("u1",
      { id := "u1", name := "Alice", isHost := true,
        grid := [⟨"a", ScoreType.O⟩, ⟨"b", ScoreType.O⟩, ⟨"c", ScoreType.STAR⟩,
                 ⟨"d", ScoreType.X⟩, ⟨"e", ScoreType.NONE⟩, ⟨"f", ScoreType.O⟩,
                 ⟨"g", ScoreType.O⟩, ⟨"h", ScoreType.STAR⟩, ⟨"i", ScoreType.O⟩],
        totalScore := 5, isReady := true, status := "active" })],
    createdAt := 0 }

/-- Claim C1: calculateFinalScores adds to each player a round score that is
a pure function of that player's 9-cell grid, namely 1 point per O cell plus
2 per STAR cell, a row bonus of 3, 2, 1 for a full top, middle, bottom row
of O or STAR cells, and a column bonus of 1, 2, 3 for a full left, middle,
right column of O or STAR cells; X and NONE cells contribute nothing. -/
theorem calculateFinalScores_adds_grid_score (room : GameRoom)
    (h9 : ∀ kp ∈ room.players, (Prod.snd kp).grid.length = 9) :
    (calculateFinalScores room).players
      = room.players.map (fun kp =>
          (kp.1, { kp.2 with totalScore := kp.2.totalScore + specRoundScore kp.2.grid })) := by
  simp [calculateFinalScores, roundScore_eq_specRoundScore]

theorem calculateFinalScores_adds_grid_score_witness :
    (∀ kp ∈ sampleScoreRoom.players, (Prod.snd kp).grid.length = 9) ∧
    (calculateFinalScores sampleScoreRoom).players
      = sampleScoreRoom.players.map (fun kp =>
          (kp.1, { kp.2 with totalScore := kp.2.totalScore + specRoundScore kp.2.grid })) :=
  ⟨by decide, calculateFinalScores_adds_grid_score sampleScoreRoom (by decide)⟩

/-- Claim C2 (divergence witness): the phase enum declared in the types
module has six members whose second is SELECT_THEMES, not SELECT_TOPICS,
while the application writes the phase value SELECT_TOPICS (Start Game
button and handleRestart); so not every phase value the application writes
is a member of the declared enum. -/
theorem declared_phase_enum_mismatch :
    declaredGamePhaseNames.length = 6 ∧
    "SELECT_THEMES" ∈ declaredGamePhaseNames ∧
    "SELECT_TOPICS" ∉ declaredGamePhaseNames ∧
    phaseName GamePhase.SELECT_TOPICS ∈ appWrittenPhases.map phaseName ∧
    ¬ (∀ p ∈ appWrittenPhases, phaseName p ∈ declaredGamePhaseNames) := by
  decide

end JinxO

namespace JinxO

theorem modifyAt_length (l : List GridCell) (i : Nat) (f : GridCell → GridCell) :
    (modifyAt l i f).length = l.length := by
  induction l generalizing i with
  | nil => rfl
  | cons c cs ih =>
      cases i with
      | zero => rfl
      | succ n => simp [modifyAt, ih]

theorem getElem?_modifyAt (l : List GridCell) (i j : Nat) (f : GridCell → GridCell) :
    (modifyAt l i f)[j]? = if j = i then l[i]?.map f else l[j]? := by
  induction l generalizing i j with
  | nil => simp [modifyAt]
  | cons c cs ih =>
      cases i with
      | zero =>
          cases j with
          | zero => simp [modifyAt]
          | succ m => simp [modifyAt]
      | succ n =>
          cases j with
          | zero => simp [modifyAt]
          | succ m => simp [modifyAt, ih]

theorem map_word_modifyAt (l : List GridCell) (i : Nat) (f : GridCell → GridCell)
    (hword : ∀ c, (f c).word = c.word) :
    (modifyAt l i f).map GridCell.word = l.map GridCell.word := by
  induction l generalizing i with
  | nil => rfl
  | cons c cs ih =>
      cases i with
      | zero => simp [modifyAt, hword]
      | succ n => simp [modifyAt, ih]

theorem lookupP_updateP_self (ps : List (String × Player)) (uid : String) (f : Player → Player) :
    lookupP (updateP ps uid f) uid = (lookupP ps uid).map f := by
  induction ps with
  | nil => rfl
  | cons kp rest ih =>
      obtain ⟨k, p⟩ := kp
      by_cases h : k = uid <;> simp [updateP, lookupP, h, ih]

theorem lookupP_updateP_ne (ps : List (String × Player)) (uid : String) (f : Player → Player)
    (k : String) (h : k ≠ uid) :
    lookupP (updateP ps uid f) k = lookupP ps k := by
  induction ps with
  | nil => rfl
  | cons kp rest ih =>
      obtain ⟨k1, p⟩ := kp
      by_cases h1 : k1 = uid
      · subst h1
        have : k1 ≠ k := fun hk => h (hk ▸ rfl)
        simp [updateP, lookupP, this]
      · by_cases h2 : k1 = k <;> simp [updateP, lookupP, h1, h2, h, ih]

theorem keys_updateP (ps : List (String × Player)) (uid : String) (f : Player → Player) :
    (updateP ps uid f).map Prod.fst = ps.map Prod.fst := by
  induction ps with
  | nil => rfl
  | cons kp rest ih =>
      obtain ⟨k, p⟩ := kp
      by_cases h : k = uid <;> simp [updateP, h, ih]

theorem updateP_preserves (P : Player → Prop) (ps : List (String × Player)) (uid : String)
    (f : Player → Player) (hps : ∀ kp ∈ ps, P kp.2) (hf : ∀ p, P p → P (f p)) :
    ∀ kp ∈ updateP ps uid f, P kp.2 := by
  induction ps with
  | nil => simp [updateP]
  | cons hd rest ih =>
      obtain ⟨k, p⟩ := hd
      have hhd : P p := hps (k, p) (by simp)
      have hrest : ∀ kp ∈ rest, P kp.2 := fun kp hkp => hps kp (by simp [hkp])
      by_cases h : k = uid
      · simp only [updateP, h, if_pos rfl]
        intro kp hkp
        rcases List.mem_cons.mp hkp with rfl | hmem
        · exact hf p hhd
        · exact hrest kp hmem
      · simp only [updateP, if_neg h]
        intro kp hkp
        rcases List.mem_cons.mp hkp with rfl | hmem
        · exact hhd
        · exact ih hrest kp hmem

theorem mem_updateP_with_key (ps : List (String × Player)) (uid : String) (f : Player → Player)
    (hnd : (ps.map Prod.fst).Nodup) (kp : String × Player)
    (hkp : kp ∈ updateP ps uid f) (hk : kp.1 = uid) :
    ∃ p0, kp.2 = f p0 := by
  induction ps with
  | nil => simp [updateP] at hkp
  | cons hd rest ih =>
      obtain ⟨k, p⟩ := hd
      rw [List.map_cons, List.nodup_cons] at hnd
      by_cases h : k = uid
      · subst h
        rw [updateP, if_pos rfl] at hkp
        rcases List.mem_cons.mp hkp with rfl | hmem
        · exact ⟨p, rfl⟩
        · exact absurd (List.mem_map.mpr ⟨kp, hmem, hk.trans rfl⟩) (by simpa using hnd.1)
      · rw [updateP, if_neg h] at hkp
        rcases List.mem_cons.mp hkp with rfl | hmem
        · exact absurd hk h
        · exact ih hnd.2 hmem

theorem lookupP_append (l1 l2 : List (String × Player)) (k : String) (h : lookupP l1 k = none) :
    lookupP (l1 ++ l2) k = lookupP l2 k := by
  induction l1 with
  | nil => rfl
  | cons hd rest ih =>
      obtain ⟨k1, p⟩ := hd
      by_cases h1 : k1 = k
      · simp [lookupP, h1] at h
      · rw [lookupP, if_neg h1] at h
        simpa [lookupP, h1] using ih h

theorem hasKey_eq_false_iff (ps : List (String × Player)) (uid : String) :
    hasKey ps uid = false ↔ lookupP ps uid = none := by
  induction ps with
  | nil => simp [hasKey, lookupP]
  | cons hd rest ih =>
      obtain ⟨k, p⟩ := hd
      by_cases h : k = uid
      · simp [hasKey, lookupP, h]
      · simpa [hasKey, lookupP, h] using ih

theorem lookupP_setP_self (ps : List (String × Player)) (uid : String) (p : Player) :
    lookupP (setP ps uid p) uid = some p := by
  rw [setP]
  cases hk : hasKey ps uid with
  | false =>
      rw [if_neg (by simp [hk])]
      rw [lookupP_append _ _ _ ((hasKey_eq_false_iff ps uid).mp hk)]
      simp [lookupP]
  | true =>
      rw [if_pos (by simp [hk])]
      rw [lookupP_updateP_self]
      cases hl : lookupP ps uid with
      | none => rw [← hasKey_eq_false_iff] at hl; rw [hk] at hl; cases hl
      | some q => rfl

end JinxO

namespace JinxO

/-- Invariant of claim C6: every player record in the room has a 9-cell grid. -/
def gridsLen9 (room : GameRoom) : Prop :=
  ∀ kp ∈ room.players, (Prod.snd kp).grid.length = 9

instance (room : GameRoom) : Decidable (gridsLen9 room) :=
  List.decidableBAll _ _

/-- Claim C6: grids are always exactly 9 cells of word plus score tag in
the four-value ScoreType; a player freshly created by handleCreateRoom or
joinRoom has nine empty NONE cells, total score 0 and isReady false; and
setWord (the data change of updateGrid and saveGridToDb), cycleScore,
handleRestart and calculateFinalScores all preserve 9-cell grids. -/
theorem player_grid_invariants :
    createEmptyGrid.length = 9 ∧
    (∀ c ∈ createEmptyGrid, c.word = "" ∧ c.score = ScoreType.NONE) ∧
    (∀ s : ScoreType, s = ScoreType.NONE ∨ s = ScoreType.O ∨ s = ScoreType.X ∨ s = ScoreType.STAR) ∧
    (∀ uid name rid now room, handleCreateRoom uid name rid now = some room →
        lookupP room.players uid =
          some { id := uid, name := name, isHost := true, grid := createEmptyGrid,
                 totalScore := 0, isReady := false, status := "active" } ∧ gridsLen9 room) ∧
    (∀ uid name, (freshPlayer uid name).grid = createEmptyGrid ∧
        (freshPlayer uid name).totalScore = 0 ∧ (freshPlayer uid name).isReady = false) ∧
    (∀ room uid idx w, gridsLen9 room → gridsLen9 (setWord room uid idx w)) ∧
    (∀ room uid idx room2, gridsLen9 room → cycleScore room uid idx = some room2 →
        gridsLen9 room2) ∧
    (∀ room uid room2, handleRestart room uid = some room2 → gridsLen9 room2) ∧
    (∀ room, gridsLen9 room → gridsLen9 (calculateFinalScores room)) := by
  refine ⟨by decide, by decide, ?_, ?_, ?_, ?_, ?_, ?_, ?_⟩
  · intro s; cases s <;> simp
  · intro uid name rid now room h
    rw [handleCreateRoom] at h
    split at h
    · cases h
    · cases h
      refine ⟨by simp [lookupP], ?_⟩
      intro kp hkp
      simp only [List.mem_singleton] at hkp
      subst hkp
      simp [createEmptyGrid]
  · intro uid name; simp [freshPlayer]
  · intro room uid idx w h kp hkp
    exact updateP_preserves (fun q => q.grid.length = 9) room.players uid _ h
      (fun p hp => by simpa [modifyAt_length] using hp) kp hkp
  · intro room uid idx room2 h hsome
    rw [cycleScore] at hsome
    split at hsome
    · cases hsome
    · cases hsome
      intro kp hkp
      exact updateP_preserves (fun q => q.grid.length = 9) room.players uid _ h
        (fun p hp => by simpa [modifyAt_length] using hp) kp hkp
  · intro room uid room2 hsome
    rw [handleRestart] at hsome
    split at hsome
    · cases hsome
    · cases hsome
      intro kp hkp
      obtain ⟨kp0, _, rfl⟩ := List.mem_map.mp hkp
      simp [createEmptyGrid]
  · intro room h kp hkp
    obtain ⟨kp0, hkp0, rfl⟩ := List.mem_map.mp hkp
    exact h kp0 hkp0

theorem player_grid_invariants_witness :
    gridsLen9 sampleScoreRoom ∧
    gridsLen9 (setWord sampleScoreRoom "u1" 4 "word") ∧
    (∃ r2, cycleScore sampleScoreRoom "u1" 0 = some r2 ∧ gridsLen9 r2) ∧
    (∃ r3, handleRestart sampleScoreRoom "u1" = some r3 ∧ gridsLen9 r3) ∧
    gridsLen9 (calculateFinalScores sampleScoreRoom) := by
  refine ⟨by decide,
    player_grid_invariants.2.2.2.2.2.1 sampleScoreRoom "u1" 4 "word" (by decide),
    ⟨_, rfl, player_grid_invariants.2.2.2.2.2.2.1 sampleScoreRoom "u1" 0 _ (by decide) rfl⟩,
    ⟨_, rfl, player_grid_invariants.2.2.2.2.2.2.2.1 sampleScoreRoom "u1" _ rfl⟩,
    player_grid_invariants.2.2.2.2.2.2.2.2 sampleScoreRoom (by decide)⟩

/-- Claim C10: handleRestart does nothing for a non-host caller; for the
host it moves the phase to SELECT_TOPICS, clears the three topics, resets
every player to an empty 9-cell grid with isReady false, and changes
nothing else (room identity and each player record otherwise as before). -/
theorem handleRestart_resets (room : GameRoom) (uid : String) :
    (uid ≠ room.hostId → handleRestart room uid = none) ∧
    (uid = room.hostId → ∃ room2, handleRestart room uid = some room2 ∧
      room2.phase = GamePhase.SELECT_TOPICS ∧
      room2.topics = ["", "", ""] ∧
      room2.id = room.id ∧ room2.hostId = room.hostId ∧ room2.createdAt = room.createdAt ∧
      room2.players = room.players.map (fun kp =>
        (kp.1, { kp.2 with grid := createEmptyGrid, isReady := false }))) := by
  constructor
  · intro h; simp [handleRestart, h]
  · intro h
    rw [handleRestart, if_neg (by simp [h])]
    exact ⟨_, rfl, rfl, rfl, rfl, rfl, rfl, rfl⟩

theorem handleRestart_resets_witness :
    ("zz" ≠ sampleScoreRoom.hostId ∧ handleRestart sampleScoreRoom "zz" = none) ∧
    ("u1" = sampleScoreRoom.hostId ∧
      ∃ room2, handleRestart sampleScoreRoom "u1" = some room2 ∧
        room2.phase = GamePhase.SELECT_TOPICS ∧
        room2.topics = ["", "", ""] ∧
        room2.id = sampleScoreRoom.id ∧ room2.hostId = sampleScoreRoom.hostId ∧
        room2.createdAt = sampleScoreRoom.createdAt ∧
        room2.players = sampleScoreRoom.players.map (fun kp =>
          (kp.1, { kp.2 with grid := createEmptyGrid, isReady := false }))) :=
  ⟨⟨by decide, (handleRestart_resets sampleScoreRoom "zz").1 (by decide)⟩,
   ⟨by decide, (handleRestart_resets sampleScoreRoom "u1").2 (by decide)⟩⟩

end JinxO

namespace JinxO

/-- Claim C8: nextScore walks the cycle NONE, O, X, STAR and four steps are
the identity; cycleScore issues no write unless the phase is SCORING or
VALIDATION; and the write it issues changes only the score of the one
targeted cell of the grid of the calling user, leaving the rest of the room,
every other player, every other cell and all the words unchanged. -/
theorem cycleScore_cycles (room : GameRoom) (uid : String) (idx : Nat) :
    (∀ s, nextScore (nextScore (nextScore (nextScore s))) = s) ∧
    (room.phase ≠ GamePhase.SCORING → room.phase ≠ GamePhase.VALIDATION →
        cycleScore room uid idx = none) ∧
    ((room.phase = GamePhase.SCORING ∨ room.phase = GamePhase.VALIDATION) →
      ∃ room2, cycleScore room uid idx = some room2 ∧
        room2.phase = room.phase ∧ room2.topics = room.topics ∧
        room2.hostId = room.hostId ∧ room2.id = room.id ∧ room2.createdAt = room.createdAt ∧
        (∀ k, k ≠ uid → lookupP room2.players k = lookupP room.players k) ∧
        (∀ p, lookupP room.players uid = some p →
          ∃ p2, lookupP room2.players uid = some p2 ∧
            p2.id = p.id ∧ p2.name = p.name ∧ p2.isHost = p.isHost ∧
            p2.totalScore = p.totalScore ∧ p2.isReady = p.isReady ∧ p2.status = p.status ∧
            p2.grid.map GridCell.word = p.grid.map GridCell.word ∧
            (∀ j, j ≠ idx → p2.grid[j]? = p.grid[j]?) ∧
            (∀ c, p.grid[idx]? = some c →
                p2.grid[idx]? = some { c with score := nextScore c.score }))) := by
  refine ⟨by intro s; cases s <;> rfl, ?_, ?_⟩
  · intro h1 h2
    rw [cycleScore, if_pos ⟨h1, h2⟩]
  · intro hph
    have hcond : ¬(room.phase ≠ GamePhase.SCORING ∧ room.phase ≠ GamePhase.VALIDATION) := by
      rcases hph with h | h <;> simp [h]
    rw [cycleScore, if_neg hcond]
    refine ⟨_, rfl, rfl, rfl, rfl, rfl, rfl, ?_, ?_⟩
    · intro k hk
      exact lookupP_updateP_ne _ _ _ _ hk
    · intro p hp
      refine ⟨{ p with grid := modifyAt p.grid idx (fun c => { c with score := nextScore c.score }) },
        by rw [lookupP_updateP_self, hp]; rfl, rfl, rfl, rfl, rfl, rfl, rfl, ?_, ?_, ?_⟩
      · exact map_word_modifyAt _ _ _ (fun c => rfl)
      · intro j hj
        rw [getElem?_modifyAt, if_neg hj]
      · intro c hc
        rw [getElem?_modifyAt, if_pos rfl, hc]
        rfl

theorem cycleScore_cycles_witness :
    (sampleScoreRoom.phase = GamePhase.SCORING ∨ sampleScoreRoom.phase = GamePhase.VALIDATION) ∧
    (∃ room2 p2, cycleScore sampleScoreRoom "u1" 4 = some room2 ∧
      lookupP room2.players "u1" = some p2 ∧
      p2.grid[4]? = some { word := "e", score := nextScore ScoreType.NONE }) := by
  refine ⟨by decide, ?_⟩
  obtain ⟨room2, hsome, _, _, _, _, _, _, hp⟩ :=
    (cycleScore_cycles sampleScoreRoom "u1" 4).2.2 (by decide)
  obtain ⟨p2, hp2, _, _, _, _, _, _, _, _, hcell⟩ := hp _ rfl
  exact ⟨room2, p2, hsome, hp2, hcell _ rfl⟩

end JinxO

namespace JinxO

/-- Claim C5: joinRoom rejects with the message "Room not found" exactly
when the room document is absent; when it exists, joinRoom resolves with
the player written into the players object with status active, keeping an
existing record (except its name) on rejoin and creating a fresh record
otherwise; and handleJoinRoom surfaces the rejection message as the UI
error string. -/
theorem joinRoom_rejects_iff_absent (uid name : String) :
    (∀ db : Option GameRoom, (∃ msg, joinRoom db uid name = Except.error msg) ↔ db = none) ∧
    (joinRoom none uid name = Except.error "Room not found") ∧
    (∀ db : GameRoom, ∃ room2, joinRoom (some db) uid name = Except.ok room2 ∧
        (∀ p, lookupP db.players uid = some p →
            lookupP room2.players uid = some { p with name := name, status := "active" }) ∧
        (lookupP db.players uid = none →
            lookupP room2.players uid = some (freshPlayer uid name))) ∧
    (name.length ≤ 24 → (handleJoinRoom none uid name).2 = "Room not found") := by
  refine ⟨?_, rfl, ?_, ?_⟩
  · intro db
    constructor
    · rintro ⟨msg, hmsg⟩
      cases db with
      | none => rfl
      | some r =>
          rw [joinRoom] at hmsg
          cases hlk : lookupP r.players uid <;> simp [hlk] at hmsg
    · rintro rfl
      exact ⟨"Room not found", rfl⟩
  · intro db
    cases hlk : lookupP db.players uid with
    | none =>
        refine ⟨_, by rw [joinRoom, hlk], ?_, ?_⟩
        · intro p hp
          exact Option.noConfusion hp
        · intro _
          exact lookupP_setP_self _ _ _
    | some q =>
        refine ⟨_, by rw [joinRoom, hlk], ?_, ?_⟩
        · intro p hp
          cases hp
          exact lookupP_setP_self _ _ _
        · intro hnone
          exact Option.noConfusion hnone
  · intro h
    rw [handleJoinRoom, if_neg (by omega)]
    rfl

theorem joinRoom_rejects_iff_absent_witness :
    joinRoom none "u9" "Bob" = Except.error "Room not found" ∧
    ((5 : Nat) ≤ 24 ∧ (handleJoinRoom none "u9" "Bobby").2 = "Room not found") ∧
    (lookupP sampleScoreRoom.players "u9" = none ∧
      ∃ room2, joinRoom (some sampleScoreRoom) "u9" "Bob" = Except.ok room2 ∧
        lookupP room2.players "u9" = some (freshPlayer "u9" "Bob")) ∧
    (∃ room3 p, joinRoom (some sampleScoreRoom) "u1" "Alicia" = Except.ok room3 ∧
      lookupP sampleScoreRoom.players "u1" = some p ∧
      lookupP room3.players "u1" = some { p with name := "Alicia", status := "active" }) := by
  refine ⟨(joinRoom_rejects_iff_absent "u9" "Bob").2.1,
    ⟨by decide, (joinRoom_rejects_iff_absent "u9" "Bobby").2.2.2 (by decide)⟩, ⟨by decide, ?_⟩, ?_⟩
  · obtain ⟨room2, hok, _, hnew⟩ := (joinRoom_rejects_iff_absent "u9" "Bob").2.2.1 sampleScoreRoom
    exact ⟨room2, hok, hnew (by decide)⟩
  · obtain ⟨room3, hok, hold, _⟩ := (joinRoom_rejects_iff_absent "u1" "Alicia").2.2.1 sampleScoreRoom
    exact ⟨room3, _, hok, rfl, hold _ rfl⟩

end JinxO

namespace JinxO

theorem lookupP_transferHost (r : GameRoom) (uid nh : String) (q : Player)
    (hq : lookupP r.players uid = some q) :
    ∃ q2, lookupP (transferHost r uid nh).players uid = some q2 ∧
      q2.id = q.id ∧ q2.name = q.name ∧ q2.grid = q.grid ∧
      q2.totalScore = q.totalScore ∧ q2.isReady = q.isReady ∧ q2.status = q.status := by
  by_cases h : nh = uid
  · subst h
    have hlk : lookupP (transferHost r nh nh).players nh = some { q with isHost := false } := by
      show lookupP (updateP (updateP r.players nh (fun p => { p with isHost := true }))
          nh (fun p => { p with isHost := false })) nh = _
      rw [lookupP_updateP_self, lookupP_updateP_self, hq]
      rfl
    exact ⟨_, hlk, rfl, rfl, rfl, rfl, rfl, rfl⟩
  · have hlk : lookupP (transferHost r uid nh).players uid = some { q with isHost := false } := by
      show lookupP (updateP (updateP r.players nh (fun p => { p with isHost := true }))
          uid (fun p => { p with isHost := false })) uid = _
      rw [lookupP_updateP_self, lookupP_updateP_ne _ _ _ _ (fun hh => h hh.symm), hq]
      rfl
    exact ⟨_, hlk, rfl, rfl, rfl, rfl, rfl, rfl⟩

/-- Sample two-player room used by the leaveRoom and host-claim witnesses. -/
def annP : Player :=
  { id := "aa", name := "Ann", isHost := true, grid := createEmptyGrid,
    totalScore := 2, isReady := false, status := "active" }

def zedP : Player :=
  { id := "zz", name := "Zed", isHost := false, grid := createEmptyGrid,
    totalScore := 1, isReady := false, status := "active" }

def sampleTwoRoom : GameRoom :=
  { id := "5678", hostId := "aa", topics := ["x", "y", "z"], phase := GamePhase.WRITING,
    players := [("aa", annP), ("zz", zedP)], createdAt := 3 }

/-- Claim C4: leaveRoom never deletes the entry of the leaving player from
the players object; in every state it leaves behind, that player is present
with status "leaved" and with id, name, grid, totalScore and isReady
unchanged (the isHost flag may be turned off); the room document as a whole
may instead be removed. -/
theorem leaveRoom_marks_not_deletes (db : GameRoom) (uid : String) (hostFlag : Bool) (pick : Nat)
    (p : Player) (hp : lookupP db.players uid = some p) :
    leaveRoom (some db) uid hostFlag pick = none ∨
    ∃ room2 p2, leaveRoom (some db) uid hostFlag pick = some room2 ∧
      lookupP room2.players uid = some p2 ∧
      p2.status = "leaved" ∧ p2.id = p.id ∧ p2.name = p.name ∧ p2.grid = p.grid ∧
      p2.totalScore = p.totalScore ∧ p2.isReady = p.isReady := by
  have hpm : lookupP (markLeaved db uid).players uid = some { p with status := "leaved" } := by
    show lookupP (updateP db.players uid (fun q => { q with status := "leaved" })) uid = _
    rw [lookupP_updateP_self, hp]
    rfl
  show (leaveRoomCore (markLeaved db uid) uid hostFlag pick = none) ∨ _
  rw [show leaveRoom (some db) uid hostFlag pick
    = leaveRoomCore (markLeaved db uid) uid hostFlag pick from rfl]
  cases hostFlag with
  | false =>
      cases hall : allLeaved (markLeaved db uid) with
      | true => exact Or.inl (by simp [leaveRoomCore, hall])
      | false =>
          exact Or.inr ⟨markLeaved db uid, _, by simp [leaveRoomCore, hall], hpm,
            rfl, rfl, rfl, rfl, rfl, rfl⟩
  | true =>
      cases hpick : pickAt (remainingActiveKeys (markLeaved db uid) uid) pick with
      | some nh =>
          obtain ⟨q2, hq2, h1, h2, h3, h4, h5, h6⟩ :=
            lookupP_transferHost (markLeaved db uid) uid nh _ hpm
          exact Or.inr ⟨_, q2, by simp [leaveRoomCore, hpick], hq2, h6, h1, h2, h3, h4, h5⟩
      | none =>
          cases hall : allLeavedOrSelf (markLeaved db uid) uid with
          | true => exact Or.inl (by simp [leaveRoomCore, hpick, hall])
          | false =>
              cases hpick2 : pickAt (remainingKeys (markLeaved db uid) uid) pick with
              | some nh =>
                  obtain ⟨q2, hq2, h1, h2, h3, h4, h5, h6⟩ :=
                    lookupP_transferHost (markLeaved db uid) uid nh _ hpm
                  exact Or.inr ⟨_, q2, by simp [leaveRoomCore, hpick, hall, hpick2],
                    hq2, h6, h1, h2, h3, h4, h5⟩
              | none =>
                  exact Or.inr ⟨markLeaved db uid, _,
                    by simp [leaveRoomCore, hpick, hall, hpick2], hpm,
                    rfl, rfl, rfl, rfl, rfl, rfl⟩

theorem leaveRoom_marks_not_deletes_witness :
    lookupP sampleTwoRoom.players "zz" = some zedP ∧
    (leaveRoom (some sampleTwoRoom) "zz" false 0 = none ∨
      ∃ room2 p2, leaveRoom (some sampleTwoRoom) "zz" false 0 = some room2 ∧
        lookupP room2.players "zz" = some p2 ∧
        p2.status = "leaved" ∧ p2.id = zedP.id ∧ p2.name = zedP.name ∧ p2.grid = zedP.grid ∧
        p2.totalScore = zedP.totalScore ∧ p2.isReady = zedP.isReady) :=
  ⟨by decide, leaveRoom_marks_not_deletes sampleTwoRoom "zz" false 0 zedP (by decide)⟩

end JinxO

namespace JinxO

theorem allLeaved_iff (r : GameRoom) :
    allLeaved r = true ↔ ∀ kp ∈ r.players, kp.2.status = "leaved" := by
  simp [allLeaved, List.all_eq_true]

theorem pickAt_eq_none_iff (l : List String) (pick : Nat) :
    pickAt l pick = none ↔ l = [] := by
  rw [pickAt, List.get?_eq_none]
  constructor
  · intro h
    cases l with
    | nil => rfl
    | cons a as =>
        exfalso
        have hlt := Nat.mod_lt pick (show 0 < (a :: as).length by simp)
        omega
  · rintro rfl
    simp

theorem pickAt_mem (l : List String) (pick : Nat) (x : String) (h : pickAt l pick = some x) :
    x ∈ l :=
  List.get?_mem h

theorem remainingActiveKeys_eq_nil_iff (r : GameRoom) (uid : String) :
    remainingActiveKeys r uid = [] ↔
      ∀ kp ∈ r.players, kp.1 = uid ∨ kp.2.status = "leaved" := by
  rw [remainingActiveKeys, List.map_eq_nil_iff, List.filter_eq_nil_iff]
  constructor
  · intro h kp hkp
    by_cases hk : kp.1 = uid
    · exact Or.inl hk
    · right
      have h2 := h kp hkp
      simp [hk] at h2
      exact h2
  · intro h kp hkp
    rcases h kp hkp with h1 | h1 <;> simp [h1]

theorem mem_remainingActiveKeys (r : GameRoom) (uid x : String)
    (hx : x ∈ remainingActiveKeys r uid) :
    ∃ kp ∈ r.players, kp.1 = x ∧ x ≠ uid ∧ kp.2.status ≠ "leaved" := by
  rw [remainingActiveKeys] at hx
  obtain ⟨kp, hkp, rfl⟩ := List.mem_map.mp hx
  have hmem := List.mem_filter.mp hkp
  have h2 := hmem.2
  simp at h2
  exact ⟨kp, hmem.1, rfl, h2.1, h2.2⟩

theorem allLeavedOrSelf_of_all (r : GameRoom) (uid : String)
    (h : ∀ kp ∈ r.players, kp.2.status = "leaved") :
    allLeavedOrSelf r uid = true := by
  simp only [allLeavedOrSelf, List.all_eq_true]
  intro kp hkp
  simp [h kp hkp]

end JinxO


namespace JinxO

/-- Claim C9: leaveRoom removes the room document exactly when, after the
leaver has been marked "leaved", every player in the players object is
marked "leaved"; and when the leaver was host and some player is still
active, the room is kept and hostId is reassigned to one of the remaining
players (a key of the players object other than the leaver). -/
theorem leaveRoom_deletes_iff_all_leaved (db : GameRoom) (uid : String) (hostFlag : Bool)
    (pick : Nat) (hnd : (db.players.map Prod.fst).Nodup) :
    (leaveRoom (some db) uid hostFlag pick = none ↔
        ∀ kp ∈ (markLeaved db uid).players, kp.2.status = "leaved") ∧
    (hostFlag = true → ∀ kp ∈ (markLeaved db uid).players, kp.2.status ≠ "leaved" →
        ∃ room2, leaveRoom (some db) uid hostFlag pick = some room2 ∧
          room2.hostId ≠ uid ∧ room2.hostId ∈ db.players.map Prod.fst) := by
  have hkeys : (markLeaved db uid).players.map Prod.fst = db.players.map Prod.fst :=
    keys_updateP _ _ _
  have hself : ∀ kp ∈ (markLeaved db uid).players, kp.1 = uid → kp.2.status = "leaved" := by
    intro kp hkp hk
    obtain ⟨p0, hp0⟩ := mem_updateP_with_key db.players uid _ hnd kp hkp hk
    rw [hp0]
  have hrw : leaveRoom (some db) uid hostFlag pick
      = leaveRoomCore (markLeaved db uid) uid hostFlag pick := rfl
  cases hostFlag with
  | false =>
      refine ⟨?_, fun h => Bool.noConfusion h⟩
      rw [hrw]
      cases hall : allLeaved (markLeaved db uid) with
      | true =>
          simp only [leaveRoomCore, Bool.false_eq_true, if_false, hall, if_true]
          exact ⟨fun _ => (allLeaved_iff _).mp hall, fun _ => trivial⟩
      | false =>
          simp only [leaveRoomCore, Bool.false_eq_true, if_false, hall]
          constructor
          · intro h; cases h
          · intro h
            rw [← allLeaved_iff, hall] at h
            cases h
  | true =>
      cases hpick : pickAt (remainingActiveKeys (markLeaved db uid) uid) pick with
      | some nh =>
          obtain ⟨kp, hkp, hfst, hne, hst⟩ :=
            mem_remainingActiveKeys _ _ _ (pickAt_mem _ _ _ hpick)
          have hsome : leaveRoom (some db) uid true pick
              = some (transferHost (markLeaved db uid) uid nh) := by
            rw [hrw]; simp [leaveRoomCore, hpick]
          refine ⟨⟨?_, ?_⟩, ?_⟩
          · intro h; rw [hsome] at h; cases h
          · intro hall; exact absurd (hall kp hkp) hst
          · intro _ kp2 hkp2 hst2
            refine ⟨_, hsome, hne, ?_⟩
            show (transferHost (markLeaved db uid) uid nh).hostId ∈ _
            rw [show (transferHost (markLeaved db uid) uid nh).hostId = nh from rfl, ← hkeys,
              ← hfst]
            exact List.mem_map.mpr ⟨kp, hkp, rfl⟩
      | none =>
          have hnil := (pickAt_eq_none_iff _ _).mp hpick
          have hleaved : ∀ kp ∈ (markLeaved db uid).players, kp.2.status = "leaved" := by
            intro kp hkp
            rcases (remainingActiveKeys_eq_nil_iff _ _).mp hnil kp hkp with h1 | h1
            · exact hself kp hkp h1
            · exact h1
          have hnone : leaveRoom (some db) uid true pick = none := by
            rw [hrw]
            simp [leaveRoomCore, hpick, allLeavedOrSelf_of_all _ uid hleaved]
          refine ⟨⟨fun _ => hleaved, fun _ => hnone⟩, ?_⟩
          intro _ kp hkp hst
          exact absurd (hleaved kp hkp) hst

theorem leaveRoom_deletes_iff_all_leaved_witness :
    (sampleTwoRoom.players.map Prod.fst).Nodup ∧
    (∃ room2, leaveRoom (some sampleTwoRoom) "aa" true 0 = some room2 ∧
      room2.hostId ≠ "aa" ∧ room2.hostId ∈ sampleTwoRoom.players.map Prod.fst) ∧
    (sampleScoreRoom.players.map Prod.fst).Nodup ∧
    leaveRoom (some sampleScoreRoom) "u1" true 0 = none := by
  refine ⟨by decide, ?_, by decide, ?_⟩
  · exact (leaveRoom_deletes_iff_all_leaved sampleTwoRoom "aa" true 0 (by decide)).2 rfl
      ("zz", zedP) (by decide) (by decide)
  · exact (leaveRoom_deletes_iff_all_leaved sampleScoreRoom "u1" true 0 (by decide)).1.mpr
      (by decide)

end JinxO

namespace JinxO

theorem lexLe_refl (x : List Char) : lexLe x x = true := by
  induction x with
  | nil => rfl
  | cons a as ih => simp [lexLe, Nat.lt_irrefl, ih]

theorem lexLe_total (x y : List Char) : lexLe x y = true ∨ lexLe y x = true := by
  induction x generalizing y with
  | nil => exact Or.inl rfl
  | cons a as ih =>
      cases y with
      | nil => exact Or.inr rfl
      | cons b bs =>
          rcases Nat.lt_trichotomy a.toNat b.toNat with h | h | h
          · left; simp [lexLe, h]
          · rcases ih bs with h2 | h2
            · left; simp [lexLe, h, Nat.lt_irrefl, h2]
            · right; simp [lexLe, h, Nat.lt_irrefl, h2]
          · right; simp [lexLe, h]

theorem lexLe_trans (x y z : List Char) (hxy : lexLe x y = true) (hyz : lexLe y z = true) :
    lexLe x z = true := by
  induction x generalizing y z with
  | nil => rfl
  | cons a as ih =>
      cases y with
      | nil => exact absurd hxy (by simp [lexLe])
      | cons b bs =>
          cases z with
          | nil => exact absurd hyz (by simp [lexLe])
          | cons c cs =>
              rw [lexLe] at hxy hyz ⊢
              by_cases hab : a.toNat < b.toNat
              · by_cases hbc : b.toNat < c.toNat
                · rw [if_pos (Nat.lt_trans hab hbc)]
                · by_cases hcb : c.toNat < b.toNat
                  · rw [if_neg hbc, if_pos hcb] at hyz; cases hyz
                  · rw [if_pos (show a.toNat < c.toNat by omega)]
              · by_cases hba : b.toNat < a.toNat
                · rw [if_neg hab, if_pos hba] at hxy; cases hxy
                · rw [if_neg hab, if_neg hba] at hxy
                  by_cases hbc : b.toNat < c.toNat
                  · rw [if_pos (show a.toNat < c.toNat by omega)]
                  · by_cases hcb : c.toNat < b.toNat
                    · rw [if_neg hbc, if_pos hcb] at hyz; cases hyz
                    · rw [if_neg hbc, if_neg hcb] at hyz
                      rw [if_neg (show ¬a.toNat < c.toNat by omega),
                        if_neg (show ¬c.toNat < a.toNat by omega)]
                      exact ih bs cs hxy hyz

instance : IsTotal Player idLe :=
  ⟨fun a b => lexLe_total a.id.data b.id.data⟩

instance : IsTrans Player idLe :=
  ⟨fun a b c => lexLe_trans a.id.data b.id.data c.id.data⟩

theorem sorted_head_min (l : List Player) (h : l ≠ []) :
    ∃ m t, List.insertionSort idLe l = m :: t ∧ m ∈ l ∧ ∀ p ∈ l, idLe m p := by
  cases hs : List.insertionSort idLe l with
  | nil =>
      exfalso
      have hp := List.perm_insertionSort idLe l
      rw [hs] at hp
      exact h (hp.symm.eq_nil)
  | cons m t =>
      have hsorted := List.sorted_insertionSort idLe l
      rw [hs] at hsorted
      have hperm := List.perm_insertionSort idLe l
      rw [hs] at hperm
      refine ⟨m, t, rfl, hperm.mem_iff.mp (List.mem_cons_self m t), ?_⟩
      intro p hp
      rcases List.mem_cons.mp (hperm.mem_iff.mpr hp) with rfl | hmem
      · exact lexLe_refl _
      · exact List.rel_of_sorted_cons hsorted p hmem

/-- Claim C3: whenever the current host is gone (absent from the players
object or marked "leaved") and at least one active player remains, there is
a leader: an active player whose id precedes every active player id in the
string ordering, and a client issues the host-reassignment write exactly
when its user id is that leader id; every other client issues no write. -/
theorem hostClaim_only_lex_first_writes (room : GameRoom)
    (hgone : hostGone room = true) (hact : activePlayers room ≠ []) :
    ∃ leader, leader ∈ activePlayers room ∧
      (∀ p ∈ activePlayers room, strLe leader.id p.id = true) ∧
      (∀ uid, hostClaimWrites room uid = true ↔ uid = leader.id) := by
  obtain ⟨m, t, hs, hmem, hmin⟩ := sorted_head_min (activePlayers room) hact
  refine ⟨m, hmem, hmin, ?_⟩
  intro uid
  have hhead : (sortedActive room).head? = some m := by
    rw [sortedActive, hs]
    rfl
  simp [hostClaimWrites, hgone, hhead]

/-- Sample room with a departed host, used by the host-claim witness. -/
def hostlessRoom : GameRoom :=
  { id := "9999", hostId := "gone", topics := [], phase := GamePhase.WRITING,
    players := [("zz", { zedP with isHost := false }), ("aa", { annP with isHost := false })],
    createdAt := 0 }

theorem hostClaim_only_lex_first_writes_witness :
    hostGone hostlessRoom = true ∧ activePlayers hostlessRoom ≠ [] ∧
    ∃ leader, leader ∈ activePlayers hostlessRoom ∧
      (∀ p ∈ activePlayers hostlessRoom, strLe leader.id p.id = true) ∧
      (∀ uid, hostClaimWrites hostlessRoom uid = true ↔ uid = leader.id) :=
  ⟨by decide, by decide, hostClaim_only_lex_first_writes hostlessRoom (by decide) (by decide)⟩

end JinxO

namespace JinxO

theorem toDigitsCore_length_lower (b : Nat) (hb : 2 ≤ b) :
    ∀ (f n e : Nat) (acc : List Char), b ^ e ≤ n → n < f →
      e + 1 + acc.length ≤ (Nat.toDigitsCore b f n acc).length := by
  intro f
  induction f with
  | zero => intro n e acc h1 h2; omega
  | succ f ih =>
      intro n e acc h1 h2
      simp only [Nat.toDigitsCore]
      by_cases hdiv : n / b = 0
      · rw [if_pos hdiv]
        have hb0 : 0 < b := by omega
        have hnb : n < b := by
          by_contra hc
          have hone : 1 ≤ n / b := (Nat.le_div_iff_mul_le hb0).mpr (by omega)
          omega
        have he : e = 0 := by
          by_contra hne
          have hbe : b ≤ b ^ e := by
            calc b = b ^ 1 := (pow_one b).symm
            _ ≤ b ^ e := Nat.pow_le_pow_right (by omega) (by omega)
          omega
        subst he
        simp only [List.length_cons]
        omega
      · rw [if_neg hdiv]
        have hb0 : 0 < b := by omega
        have hone : 1 ≤ n / b := Nat.one_le_iff_ne_zero.mpr hdiv
        have hn0 : 0 < n := by
          rcases Nat.eq_zero_or_pos n with rfl | hpos
          · simp at hdiv
          · exact hpos
        have hlt : n / b < f := by
          have hd : n / b < n := Nat.div_lt_self hn0 (by omega)
          omega
        cases e with
        | zero =>
            have hrec := ih (n / b) 0 (Nat.digitChar (n % b) :: acc) (by simpa using hone) hlt
            simp only [List.length_cons] at hrec
            omega
        | succ e =>
            have h1e : b ^ e ≤ n / b := by
              rw [Nat.le_div_iff_mul_le hb0]
              calc b ^ e * b = b ^ (e + 1) := (pow_succ b e).symm
              _ ≤ n := h1
            have hrec := ih (n / b) e (Nat.digitChar (n % b) :: acc) h1e hlt
            simp only [List.length_cons] at hrec
            omega

theorem repr_length_lower (n : Nat) (h : 1000 ≤ n) : 4 ≤ (Nat.repr n).length := by
  have h4 := toDigitsCore_length_lower 10 (by omega) (n + 1) n 3 []
    (by norm_num; omega) (Nat.lt_succ_self n)
  simpa [Nat.repr, Nat.toDigits, String.length, List.asString] using h4

theorem natRepr_length_four (n : Nat) (h1 : 1000 ≤ n) (h2 : n < 10000) :
    (Nat.repr n).length = 4 :=
  le_antisymm
    (Nat.repr_length n 4 (by omega) (by norm_num; omega))
    (repr_length_lower n h1)

/-- Claim C7: for every value of the random draw in the unit interval, the
generated room id is the decimal representation of an integer between 1000
and 9999 inclusive, hence a 4-digit decimal string. -/
theorem genRoomId_four_digits (q : ℚ) (h0 : 0 ≤ q) (h1 : q < 1) :
    ∃ n : ℤ, genRoomId q = toString n ∧ 1000 ≤ n ∧ n ≤ 9999 ∧ (genRoomId q).length = 4 := by
  have hge : (1000 : ℤ) ≤ genRoomIdNum q := by
    rw [genRoomIdNum, Int.le_floor]
    have hq : (0 : ℚ) ≤ q * 9000 := mul_nonneg h0 (by norm_num)
    push_cast
    linarith
  have hlt : genRoomIdNum q < 10000 := by
    rw [genRoomIdNum, Int.floor_lt]
    have hq : q * 9000 < 1 * 9000 := by
      exact mul_lt_mul_of_pos_right h1 (by norm_num)
    push_cast
    linarith
  refine ⟨genRoomIdNum q, rfl, hge, by omega, ?_⟩
  obtain ⟨m, hm⟩ : ∃ m : Nat, genRoomIdNum q = (m : ℤ) :=
    ⟨(genRoomIdNum q).toNat, (Int.toNat_of_nonneg (by omega)).symm⟩
  have hm1 : 1000 ≤ m := by omega
  have hm2 : m < 10000 := by omega
  rw [genRoomId, hm]
  show (Nat.repr m).length = 4
  exact natRepr_length_four m hm1 hm2

theorem genRoomId_four_digits_witness :
    (0 : ℚ) ≤ 0 ∧ (0 : ℚ) < 1 ∧
    ∃ n : ℤ, genRoomId 0 = toString n ∧ 1000 ≤ n ∧ n ≤ 9999 ∧ (genRoomId 0).length = 4 :=
  ⟨le_refl 0, zero_lt_one, genRoomId_four_digits 0 (le_refl 0) zero_lt_one⟩

end JinxO
